import Mathlib

/-!
Verification of the quiz-calibration analysis pipeline
(`src/analysis/analysis_N7_2526.py`) against its specification.

The Python module is shallowly embedded below.  Numeric conventions:
Python's exact `int` values become `Int`; Python's float arithmetic on
the small quantities involved (confidences, bin widths, accuracies) is
embedded as exact rational arithmetic over `ℚ`; Python's `int(x)`
conversion (truncation toward zero) is `pyint`.  `None`-or-value results
become `Option`, and code that can raise becomes `Except Err`.
-/

/-- Error kinds a pipeline run can raise.  The first six model the
exceptions the Python code can actually raise (`ValueError` from
`pd.concat` on an empty list, parse failures from `pd.to_datetime` /
`ast.literal_eval`, `ZeroDivisionError`, `KeyError` on a dict access,
`TypeError` from `None * 100`).  `invalidConfiguration` is the error
kind named by the specification; it is included so claims about it can
be stated — the code never produces it. -/
inductive Err where
  | noObjectsToConcat : Err
  | malformedTimestamp : Err
  | malformedAnswers : Err
  | zeroDivision : Err
  | keyError : Err
  | typeError : Err
  | invalidConfiguration : Err
deriving DecidableEq

deriving instance DecidableEq for Except

attribute [local semireducible] Rat.add Rat.mul Rat.inv Rat.sub

set_option synthInstance.maxSize 1000

/-- Python's `int(x)` conversion on a real value: truncation toward zero. -/
def pyint (q : ℚ) : Int :=
  if 0 ≤ q then ⌊q⌋ else ⌈q⌉

/-- One `(correct_answer, chosen_answer, confidence)` tuple, as stored in
the `answers` column. -/
abbrev AnswerTriple := Int × Int × Int

/-- The binning rule of `bin_answers` (line 126 of the source):
`min(int(confidence / bin_width), n_bins - 1)` with `bin_width = 100 / n_bins`. -/
def binIndex (confidence : Int) (n_bins : ℕ) : Int :=
  min (pyint ((confidence : ℚ) / (100 / (n_bins : ℚ)))) ((n_bins : Int) - 1)

/-- The squared error contributed by one answer in `calculate_brier_score`:
`(correctness - confidence / 100) ** 2` with `correctness = 1.0` iff
`correct == chosen`. -/
def brierTerm (t : AnswerTriple) : ℚ :=
  ((if t.1 = t.2.1 then (1 : ℚ) else 0) - (t.2.2 : ℚ) / 100) ^ 2

/-- `calculate_brier_score` (lines 88–107): `0.0` on the empty list,
otherwise the loop-accumulated sum of squared errors divided by the
number of answers. -/
def calculate_brier_score (answers : List AnswerTriple) : ℚ :=
  if answers = [] then 0
  else (answers.foldl (fun s t => s + brierTerm t) 0) / (answers.length : ℚ)

/-- The number of answers in a list with `correct == chosen`, as counted
by `compute_bin_statistics`. -/
def correctCount (answers : List AnswerTriple) : ℕ :=
  (answers.filter (fun t => t.1 = t.2.1)).length

/-- `compute_bin_statistics` (lines 146–166): `(None, None, None)` on an
empty bin — modelled as `none` — otherwise
`(actual_accuracy, accuracy_plus_one, accuracy_minus_one)`. -/
def compute_bin_statistics (answers : List AnswerTriple) : Option (ℚ × ℚ × ℚ) :=
  if answers = [] then none
  else
    let c : ℚ := (correctCount answers : ℚ)
    let t : ℚ := (answers.length : ℚ)
    some (c / t, (c + 1) / (t + 1), c / (t + 1))

/-- `get_bin_centroids` for a single bin (line 143 and line 186 of the
source use the same formula): `bin_width * k + bin_width / 2`. -/
def bin_centroid (n_bins k : ℕ) : ℚ :=
  (100 / (n_bins : ℚ)) * (k : ℚ) + (100 / (n_bins : ℚ)) / 2

/-- On a nonnegative argument, Python truncation agrees with the floor. -/
lemma pyint_eq_floor {q : ℚ} (h : 0 ≤ q) : pyint q = ⌊q⌋ := by
  simp [pyint, h]

lemma pyint_nonneg {q : ℚ} (h : 0 ≤ q) : 0 ≤ pyint q := by
  rw [pyint_eq_floor h]
  exact Int.floor_nonneg.mpr h

/-- C1.  For every `n_bins ≥ 1` and every integer confidence in `[0, 100]`,
the binning rule `min(int(confidence / (100 / n_bins)), n_bins - 1)` used by
`bin_answers` yields a single bin index lying in `[0, n_bins - 1]`, and
confidence `100` always falls in the last bin. -/
theorem C1_binning_rule_range (n_bins : ℕ) (hn : 1 ≤ n_bins)
    (conf : Int) (h0 : 0 ≤ conf) (h100 : conf ≤ 100) :
    (0 ≤ binIndex conf n_bins ∧ binIndex conf n_bins ≤ (n_bins : Int) - 1) ∧
      binIndex 100 n_bins = (n_bins : Int) - 1 := by
  have hnQ : (0 : ℚ) < (n_bins : ℚ) := by exact_mod_cast hn
  have hw : (0 : ℚ) < 100 / (n_bins : ℚ) := by positivity
  refine ⟨⟨?_, min_le_right _ _⟩, ?_⟩
  · have hq : (0 : ℚ) ≤ (conf : ℚ) / (100 / (n_bins : ℚ)) := by
      apply div_nonneg _ (le_of_lt hw)
      exact_mod_cast h0
    have h1 : 0 ≤ pyint ((conf : ℚ) / (100 / (n_bins : ℚ))) := pyint_nonneg hq
    have h2 : (0 : Int) ≤ (n_bins : Int) - 1 := by omega
    exact le_min h1 h2
  · have hval : ((100 : Int) : ℚ) / (100 / (n_bins : ℚ)) = (n_bins : ℚ) := by
      field_simp
    rw [binIndex, hval, pyint_eq_floor (le_of_lt hnQ)]
    rw [Int.floor_natCast]
    omega

/-- C1 witness: concrete instance at `n_bins = 4`, `confidence = 100`. -/
theorem C1_binning_rule_range_witness :
    (0 ≤ binIndex 100 4 ∧ binIndex 100 4 ≤ ((4 : ℕ) : Int) - 1) ∧
      binIndex 100 4 = ((4 : ℕ) : Int) - 1 :=
  C1_binning_rule_range 4 (by decide) 100 (by decide) (by decide)

lemma foldl_add_brierTerm (l : List AnswerTriple) (a : ℚ) :
    l.foldl (fun s t => s + brierTerm t) a = a + (l.map brierTerm).sum := by
  induction l generalizing a with
  | nil => simp
  | cons x xs ih =>
    simp only [List.foldl_cons, List.map_cons, List.sum_cons, ih]
    ring

lemma brierTerm_nonneg (t : AnswerTriple) : 0 ≤ brierTerm t :=
  sq_nonneg _

lemma brierTerm_le_one {t : AnswerTriple} (h0 : 0 ≤ t.2.2) (h100 : t.2.2 ≤ 100) :
    brierTerm t ≤ 1 := by
  have hp0 : (0 : ℚ) ≤ (t.2.2 : ℚ) / 100 := by
    apply div_nonneg _ (by norm_num)
    exact_mod_cast h0
  have hp1 : (t.2.2 : ℚ) / 100 ≤ 1 := by
    rw [div_le_one (by norm_num)]
    exact_mod_cast h100
  unfold brierTerm
  rcases em (t.1 = t.2.1) with h | h <;> simp only [h, if_true, if_false] <;>
    nlinarith [hp0, hp1]

/-- C2.  `calculate_brier_score` returns exactly `0` on the empty list; on
any non-empty list whose confidences lie in `[0, 100]` it returns the mean
of the squared errors, and that value lies in `[0, 1]`. -/
theorem C2_brier_score_range :
    calculate_brier_score [] = 0 ∧
      ∀ l : List AnswerTriple, l ≠ [] →
        (∀ t ∈ l, 0 ≤ t.2.2 ∧ t.2.2 ≤ 100) →
        calculate_brier_score l = (l.map brierTerm).sum / (l.length : ℚ) ∧
          0 ≤ calculate_brier_score l ∧ calculate_brier_score l ≤ 1 := by
  constructor
  · simp [calculate_brier_score]
  · intro l hne hconf
    have hlen : (0 : ℚ) < (l.length : ℚ) := by
      have := List.length_pos.mpr hne
      exact_mod_cast this
    have hmean : calculate_brier_score l = (l.map brierTerm).sum / (l.length : ℚ) := by
      rw [calculate_brier_score, if_neg hne, foldl_add_brierTerm, zero_add]
    have hsum0 : 0 ≤ (l.map brierTerm).sum := by
      apply List.sum_nonneg
      intro x hx
      obtain ⟨t, _, rfl⟩ := List.mem_map.mp hx
      exact brierTerm_nonneg t
    have hsum1 : (l.map brierTerm).sum ≤ (l.length : ℚ) := by
      have h := List.sum_le_card_nsmul (l.map brierTerm) 1 ?_
      · simpa using h
      · intro x hx
        obtain ⟨t, ht, rfl⟩ := List.mem_map.mp hx
        exact brierTerm_le_one (hconf t ht).1 (hconf t ht).2
    refine ⟨hmean, ?_, ?_⟩
    · rw [hmean]; exact div_nonneg hsum0 (le_of_lt hlen)
    · rw [hmean, div_le_one hlen]; exact hsum1

/-- C2 witness: a singleton list with confidence 50 has a Brier score in
`[0, 1]`. -/
theorem C2_brier_score_range_witness :
    0 ≤ calculate_brier_score [((0 : Int), (0 : Int), (50 : Int))] ∧
      calculate_brier_score [((0 : Int), (0 : Int), (50 : Int))] ≤ 1 :=
  ⟨(C2_brier_score_range.2 [((0 : Int), (0 : Int), (50 : Int))] (by decide)
      (by decide)).2.1,
    (C2_brier_score_range.2 [((0 : Int), (0 : Int), (50 : Int))] (by decide)
      (by decide)).2.2⟩

/-- C5.  `compute_bin_statistics` returns `none` on an empty bin; on a
non-empty bin it returns the actual accuracy together with the optimistic
and pessimistic Laplace-style adjustments, and the three values satisfy
`accuracy_pessimistic ≤ actual_accuracy ≤ accuracy_optimistic`. -/
theorem C5_bin_statistics_bounds :
    compute_bin_statistics [] = none ∧
      ∀ l : List AnswerTriple, l ≠ [] →
        compute_bin_statistics l =
            some ((correctCount l : ℚ) / (l.length : ℚ),
              ((correctCount l : ℚ) + 1) / ((l.length : ℚ) + 1),
              (correctCount l : ℚ) / ((l.length : ℚ) + 1)) ∧
          (correctCount l : ℚ) / ((l.length : ℚ) + 1) ≤
            (correctCount l : ℚ) / (l.length : ℚ) ∧
          (correctCount l : ℚ) / (l.length : ℚ) ≤
            ((correctCount l : ℚ) + 1) / ((l.length : ℚ) + 1) := by
  constructor
  · simp [compute_bin_statistics]
  · intro l hne
    have hlen : (0 : ℚ) < (l.length : ℚ) := by
      have := List.length_pos.mpr hne
      exact_mod_cast this
    have hc0 : (0 : ℚ) ≤ (correctCount l : ℚ) := by positivity
    have hct : (correctCount l : ℚ) ≤ (l.length : ℚ) := by
      have : correctCount l ≤ l.length := List.length_filter_le _ l
      exact_mod_cast this
    refine ⟨by rw [compute_bin_statistics, if_neg hne], ?_, ?_⟩
    · apply div_le_div_of_nonneg_left hc0 hlen
      linarith
    · rw [div_le_div_iff hlen (by linarith)]
      nlinarith

/-- C5 witness: a concrete two-answer bin (one correct, one wrong). -/
theorem C5_bin_statistics_bounds_witness :
    (correctCount [((0 : Int), (0 : Int), (50 : Int)), ((0 : Int), (1 : Int), (80 : Int))] : ℚ) /
        (([((0 : Int), (0 : Int), (50 : Int)), ((0 : Int), (1 : Int), (80 : Int))].length : ℚ) + 1) ≤
      (correctCount [((0 : Int), (0 : Int), (50 : Int)), ((0 : Int), (1 : Int), (80 : Int))] : ℚ) /
        ([((0 : Int), (0 : Int), (50 : Int)), ((0 : Int), (1 : Int), (80 : Int))].length : ℚ) :=
  (C5_bin_statistics_bounds.2
    [((0 : Int), (0 : Int), (50 : Int)), ((0 : Int), (1 : Int), (80 : Int))] (by decide)).2.1

/-- One row of loaded submission data, after `load_data` has attached the
quiz name, parsed the timestamp and decoded the answers column. -/
structure Submission where
  token : String
  quiz_name : String
  timestamp : Int
  answers : List AnswerTriple
  score : Int
  total : Int
deriving DecidableEq

/-- The `groupby` key of `get_latest_submissions`: `(token, quiz_name)`. -/
def subKey (s : Submission) : String × String :=
  (s.token, s.quiz_name)

/-- Timestamp-ascending comparison used by `sort_values('timestamp')`. -/
def tsLE (a b : Submission) : Prop :=
  a.timestamp ≤ b.timestamp

instance : DecidableRel tsLE := fun a b => inferInstanceAs (Decidable (_ ≤ _))

/-- The `groupby(['token', 'quiz_name']).tail(1)` step applied to the
sorted frame: a row survives exactly when no later row shares its
`(token, quiz_name)` key, and survivors keep their relative order. -/
def keepLastPerKey : List Submission → List Submission
  | [] => []
  | r :: rest =>
    if subKey r ∈ rest.map subKey then keepLastPerKey rest
    else r :: keepLastPerKey rest

/-- `get_latest_submissions` (lines 40–52), relationally.  The source
sorts with pandas' default `sort_values('timestamp')`, whose default
`kind='quicksort'` is documented by pandas as NOT stable, so the order of
rows with equal timestamps after sorting is not determined by the source.
The sort step is therefore modelled as: any permutation of the input that
is ordered by timestamp.  Every positive property proved over this
relation holds for whichever such permutation the library produces. -/
def get_latest_rel (xs ys : List Submission) : Prop :=
  ∃ zs : List Submission, xs.Perm zs ∧ zs.Sorted tsLE ∧ ys = keepLastPerKey zs

/-- Stable insertion of a row into a timestamp-sorted list, placing the
new row after existing rows with an equal timestamp. -/
def insertByTimestamp (r : Submission) : List Submission → List Submission
  | [] => [r]
  | a :: rest =>
    if a.timestamp ≤ r.timestamp then a :: insertByTimestamp r rest
    else r :: a :: rest

/-- One admissible implementation of `sort_values('timestamp')` (a stable
insertion sort), fixed so the pipeline below is executable. -/
def sortByTimestamp (df : List Submission) : List Submission :=
  df.foldl (fun acc r => insertByTimestamp r acc) []

/-- `get_latest_submissions` (lines 40–52), executably: sort by timestamp,
then keep the last row of each `(token, quiz_name)` group. -/
def get_latest_submissions (df : List Submission) : List Submission :=
  keepLastPerKey (sortByTimestamp df)

lemma keepLastPerKey_subset {r : Submission} :
    ∀ l : List Submission, r ∈ keepLastPerKey l → r ∈ l := by
  intro l
  induction l with
  | nil => simp [keepLastPerKey]
  | cons a rest ih =>
    rw [keepLastPerKey]
    split
    · intro h; exact List.mem_cons_of_mem a (ih h)
    · intro h
      rcases List.mem_cons.mp h with h | h
      · exact h ▸ List.mem_cons_self a rest
      · exact List.mem_cons_of_mem a (ih h)

lemma keepLastPerKey_keys_nodup :
    ∀ l : List Submission, ((keepLastPerKey l).map subKey).Nodup := by
  intro l
  induction l with
  | nil => simp [keepLastPerKey]
  | cons a rest ih =>
    rw [keepLastPerKey]
    split
    · exact ih
    · rename_i hnot
      simp only [List.map_cons, List.nodup_cons]
      refine ⟨fun hmem => hnot ?_, ih⟩
      obtain ⟨r, hr, hkey⟩ := List.mem_map.mp hmem
      exact List.mem_map.mpr ⟨r, keepLastPerKey_subset _ hr, hkey⟩

lemma keepLastPerKey_covers :
    ∀ (l : List Submission) (r' : Submission), r' ∈ l →
      ∃ r ∈ keepLastPerKey l, subKey r = subKey r' := by
  intro l
  induction l with
  | nil => simp
  | cons a rest ih =>
    intro r' hmem
    rcases List.mem_cons.mp hmem with heq | hmem
    · rw [keepLastPerKey]
      split
      · rename_i hin
        rw [← heq] at hin
        obtain ⟨b, hb, hkey⟩ := List.mem_map.mp hin
        obtain ⟨r, hr, hrk⟩ := ih b hb
        exact ⟨r, hr, hrk.trans hkey⟩
      · exact ⟨a, List.mem_cons_self _ _, by rw [heq]⟩
    · obtain ⟨r, hr, hrk⟩ := ih r' hmem
      rw [keepLastPerKey]
      split
      · exact ⟨r, hr, hrk⟩
      · exact ⟨r, List.mem_cons_of_mem a hr, hrk⟩

lemma keepLastPerKey_max :
    ∀ l : List Submission, l.Sorted tsLE →
      ∀ r ∈ keepLastPerKey l, ∀ r' ∈ l, subKey r' = subKey r →
        r'.timestamp ≤ r.timestamp := by
  intro l
  induction l with
  | nil => simp [keepLastPerKey]
  | cons a rest ih =>
    intro hsort r hr r' hr' hkey
    have hrest : rest.Sorted tsLE := hsort.of_cons
    have hhead : ∀ b ∈ rest, tsLE a b := (List.sorted_cons.mp hsort).1
    rw [keepLastPerKey] at hr
    by_cases hin : subKey a ∈ rest.map subKey
    · rw [if_pos hin] at hr
      rcases List.mem_cons.mp hr' with heq | hmem
      · have hle : tsLE a r := hhead r (keepLastPerKey_subset rest hr)
        rw [heq]; exact hle
      · exact ih hrest r hr r' hmem hkey
    · rw [if_neg hin] at hr
      rcases List.mem_cons.mp hr with heqr | hrr
      · rcases List.mem_cons.mp hr' with heq | hmem
        · rw [heq, heqr]
        · exact absurd (List.mem_map.mpr ⟨r', hmem, by rw [hkey, heqr]⟩) hin
      · rcases List.mem_cons.mp hr' with heq | hmem
        · have hle : tsLE a r := hhead r (keepLastPerKey_subset rest hrr)
          rw [heq]; exact hle
        · exact ih hrest r hrr r' hmem hkey

lemma keepLastPerKey_id {l : List Submission} (h : (l.map subKey).Nodup) :
    keepLastPerKey l = l := by
  induction l with
  | nil => rfl
  | cons a rest ih =>
    simp only [List.map_cons, List.nodup_cons] at h
    rw [keepLastPerKey, if_neg h.1, ih h.2]

/-- C3 (amended).  For every run of the normalizer (over any
timestamp-ordered permutation the unstable sort may produce): the output
carries pairwise-distinct `(respondent, quiz)` keys, every surviving
record comes from the input and carries the maximum timestamp of its key
group, and every input key is represented. -/
theorem C3_latest_submission_per_pair (xs ys : List Submission)
    (hrel : get_latest_rel xs ys) :
    (ys.map subKey).Nodup ∧
      (∀ r ∈ ys, r ∈ xs ∧ ∀ r' ∈ xs, subKey r' = subKey r →
        r'.timestamp ≤ r.timestamp) ∧
      ∀ r' ∈ xs, ∃ r ∈ ys, subKey r = subKey r' := by
  obtain ⟨zs, hperm, hsort, rfl⟩ := hrel
  refine ⟨keepLastPerKey_keys_nodup zs, ?_, ?_⟩
  · intro r hr
    refine ⟨hperm.mem_iff.mpr (keepLastPerKey_subset _ hr), ?_⟩
    intro r' hr' hkey
    exact keepLastPerKey_max zs hsort r hr r' (hperm.mem_iff.mp hr') hkey
  · intro r' hr'
    exact keepLastPerKey_covers zs r' (hperm.mem_iff.mp hr')

/-- The two records of the C3 counterexample: same respondent, same quiz,
equal timestamps, distinguished by their score. -/
def subA : Submission := ⟨"s", "q", 5, [(0, 0, 50)], 1, 1⟩

def subB : Submission := ⟨"s", "q", 5, [(0, 1, 50)], 0, 1⟩

/-- C3 counterexample.  On the input `[subA, subB]`, whose two records
share the key and the (maximal) timestamp, the run of the normalizer that
sorts the tie as `[subB, subA]` — a timestamp-ordered permutation, hence
a possible output of the unstable default sort — keeps `subA`, not the
record `subB` appearing last in input order.  So the claim that the
last-in-input record always survives a timestamp tie is false. -/
theorem C3_counterexample :
    get_latest_rel [subA, subB] [subA] ∧ subA ≠ subB :=
  ⟨⟨[subB, subA], by decide, by decide, by decide⟩, by decide⟩

/-- C3 witness: the amended theorem applied to a concrete two-record
input with distinct keys. -/
theorem C3_latest_submission_per_pair_witness :
    (([⟨"s", "q2", 3, [], 1, 1⟩, ⟨"s", "q", 5, [(0, 0, 50)], 1, 1⟩] :
        List Submission).map subKey).Nodup :=
  (C3_latest_submission_per_pair
    [⟨"s", "q", 5, [(0, 0, 50)], 1, 1⟩, ⟨"s", "q2", 3, [], 1, 1⟩]
    [⟨"s", "q2", 3, [], 1, 1⟩, ⟨"s", "q", 5, [(0, 0, 50)], 1, 1⟩]
    ⟨[⟨"s", "q2", 3, [], 1, 1⟩, ⟨"s", "q", 5, [(0, 0, 50)], 1, 1⟩],
      by decide, by decide, by decide⟩).1

/-- C4.  The normalizer is idempotent: any run of `get_latest_submissions`
on the output of a previous run returns the same records (up to the
reordering done by the sort — in particular the same set). -/
theorem C4_normalizer_idempotent (xs ys zs : List Submission)
    (h1 : get_latest_rel xs ys) (h2 : get_latest_rel ys zs) :
    zs.Perm ys := by
  obtain ⟨zs1, hperm1, hsort1, rfl⟩ := h1
  obtain ⟨zs2, hperm2, hsort2, rfl⟩ := h2
  have hnodup : ((keepLastPerKey zs1).map subKey).Nodup :=
    keepLastPerKey_keys_nodup zs1
  have hnodup2 : (zs2.map subKey).Nodup :=
    (hperm2.map subKey).nodup_iff.mp hnodup
  rw [keepLastPerKey_id hnodup2]
  exact hperm2.symm

/-- C4 witness: idempotence at a concrete one-record input. -/
theorem C4_normalizer_idempotent_witness :
    ([subA] : List Submission).Perm [subA] :=
  C4_normalizer_idempotent [subA] [subA] [subA]
    ⟨[subA], by decide, by decide, by decide⟩
    ⟨[subA], by decide, by decide, by decide⟩

/-- The confidence attached to every synthetic answer of bin `k` in
`generate_reference_answers` (line 196): `int(centroid)`. -/
def refConf (n_bins k : ℕ) : Int :=
  pyint (bin_centroid n_bins k)

/-- The inner loop of `generate_reference_answers` (lines 188–196): emit
`count` triples for one bin, threading the injectable random source.
`randint s` models one call of `random.randint(0, 3)`. -/
def genBin {σ : Type} (randint : σ → Int × σ) (ref_type : String)
    (conf : Int) : ℕ → σ → List AnswerTriple × σ
  | 0, s => ([], s)
  | Nat.succ c, s =>
    let p1 := randint s
    let p2 := if ref_type = "god" then (p1.1, p1.2) else randint p1.2
    let p3 := genBin randint ref_type conf c p2.2
    ((p1.1, p2.1, conf) :: p3.1, p3.2)

/-- The outer loop of `generate_reference_answers` (line 185): iterate
over the bin indices, concatenating each bin's triples. -/
def genAll {σ : Type} (randint : σ → Int × σ) (ref_type : String)
    (n_bins apb : ℕ) : List ℕ → σ → List AnswerTriple × σ
  | [], s => ([], s)
  | k :: ks, s =>
    let p1 := genBin randint ref_type (refConf n_bins k) apb s
    let p2 := genAll randint ref_type n_bins apb ks p1.2
    (p1.1 ++ p2.1, p2.2)

/-- `generate_reference_answers` (lines 169–198).  `bin_width = 100 /
n_bins` raises `ZeroDivisionError` when `n_bins = 0`; otherwise
`n_answers // n_bins` triples are generated per bin (the integer-floor
division of the source), each with the truncated bin centroid as
confidence.  Any `ref_type` other than `'god'` takes the monkey branch,
as in the source's `if/else`. -/
def generate_reference_answers {σ : Type} (randint : σ → Int × σ) (s : σ)
    (n_answers n_bins : ℕ) (ref_type : String) :
    Except Err (List AnswerTriple × σ) :=
  if n_bins = 0 then .error .zeroDivision
  else .ok (genAll randint ref_type n_bins (n_answers / n_bins) (List.range n_bins) s)

/-- A degenerate injectable random source, used for concrete runs. -/
def constRandint : Unit → Int × Unit := fun _ => (0, ())

lemma mem_genBin {σ : Type} (randint : σ → Int × σ) (ref_type : String)
    (conf : Int) :
    ∀ (c : ℕ) (s : σ) (t : AnswerTriple),
      t ∈ (genBin randint ref_type conf c s).1 →
      t.2.2 = conf ∧ (ref_type = "god" → t.1 = t.2.1) := by
  intro c
  induction c with
  | zero => intro s t ht; simp [genBin] at ht
  | succ n ih =>
    intro s t ht
    rw [genBin] at ht
    simp only [] at ht
    rcases List.mem_cons.mp ht with heq | hmem
    · subst heq
      refine ⟨rfl, fun hgod => ?_⟩
      simp [hgod]
    · exact ih _ t hmem

lemma mem_genAll {σ : Type} (randint : σ → Int × σ) (ref_type : String)
    (n_bins apb : ℕ) :
    ∀ (ks : List ℕ) (s : σ) (t : AnswerTriple),
      t ∈ (genAll randint ref_type n_bins apb ks s).1 →
      ∃ k ∈ ks, t.2.2 = refConf n_bins k ∧ (ref_type = "god" → t.1 = t.2.1) := by
  intro ks
  induction ks with
  | nil => intro s t ht; simp [genAll] at ht
  | cons k rest ih =>
    intro s t ht
    rw [genAll] at ht
    simp only [] at ht
    rcases List.mem_append.mp ht with hmem | hmem
    · have hb := mem_genBin randint ref_type (refConf n_bins k) apb s t hmem
      exact ⟨k, List.mem_cons_self _ _, hb.1, hb.2⟩
    · obtain ⟨k', hk', hprop⟩ := ih _ t hmem
      exact ⟨k', List.mem_cons_of_mem _ hk', hprop⟩

/-- C9.  For every answer count, every `n_bins ≥ 1`, and every state of
the injectable random source: each triple produced with the perfect
(`'god'`) kind has `chosen == correct`, and every produced triple's
confidence is the integer-truncated centroid of the bin it was generated
for. -/
theorem C9_perfect_reference {σ : Type} (randint : σ → Int × σ) (s0 : σ)
    (n_answers n_bins : ℕ) (ref_type : String)
    (ans : List AnswerTriple) (s' : σ) (hn : 1 ≤ n_bins)
    (hgen : generate_reference_answers randint s0 n_answers n_bins ref_type =
      .ok (ans, s')) :
    ∀ t ∈ ans, (∃ k, k < n_bins ∧ t.2.2 = refConf n_bins k) ∧
      (ref_type = "god" → t.1 = t.2.1) := by
  intro t ht
  rw [generate_reference_answers, if_neg (by omega)] at hgen
  simp only [Except.ok.injEq] at hgen
  have hans : ans = (genAll randint ref_type n_bins (n_answers / n_bins)
      (List.range n_bins) s0).1 := by
    rw [hgen]
  rw [hans] at ht
  obtain ⟨k, hk, hconf, hgod⟩ := mem_genAll randint ref_type n_bins
    (n_answers / n_bins) (List.range n_bins) s0 t ht
  exact ⟨⟨k, List.mem_range.mp hk, hconf⟩, hgod⟩

/-- C9 witness: the first triple of a concrete perfect run with four
answers over two bins. -/
theorem C9_perfect_reference_witness :
    (∃ k, k < 2 ∧ (((0 : Int), (0 : Int), (25 : Int)) : AnswerTriple).2.2 = refConf 2 k) ∧
      ("god" = "god" → (((0 : Int), (0 : Int), (25 : Int)) : AnswerTriple).1 =
        (((0 : Int), (0 : Int), (25 : Int)) : AnswerTriple).2.1) :=
  C9_perfect_reference constRandint () 4 2 "god"
    [(0, 0, 25), (0, 0, 25), (0, 0, 75), (0, 0, 75)] () (by decide) (by decide)
    (0, 0, 25) (by decide)

/-- For bin widths of at least 2 — that is, `n_bins ≤ 50` — truncating a
bin's centroid leaves a confidence that the binning rule maps back to the
same bin. -/
lemma binIndex_refConf {n k : ℕ} (h1 : 1 ≤ n) (h50 : n ≤ 50) (hk : k < n) :
    binIndex (refConf n k) n = (k : Int) := by
  have hnQ : (0 : ℚ) < (n : ℚ) := by exact_mod_cast h1
  have hn50 : (n : ℚ) ≤ 50 := by exact_mod_cast h50
  set w : ℚ := 100 / (n : ℚ) with hw
  have hwpos : (0 : ℚ) < w := by positivity
  have hw2 : (2 : ℚ) ≤ w := by
    rw [hw, le_div_iff hnQ]
    linarith
  have hcent_nonneg : (0 : ℚ) ≤ w * (k : ℚ) + w / 2 := by positivity
  have hc : refConf n k = ⌊w * (k : ℚ) + w / 2⌋ := by
    rw [refConf, bin_centroid, ← hw, pyint_eq_floor hcent_nonneg]
  have hcle : ((⌊w * (k : ℚ) + w / 2⌋ : Int) : ℚ) ≤ w * (k : ℚ) + w / 2 :=
    Int.floor_le _
  have hcgt : w * (k : ℚ) + w / 2 - 1 < ((⌊w * (k : ℚ) + w / 2⌋ : Int) : ℚ) :=
    Int.sub_one_lt_floor _
  have hk0 : (0 : ℚ) ≤ (k : ℚ) := by positivity
  have hclb : w * (k : ℚ) ≤ ((⌊w * (k : ℚ) + w / 2⌋ : Int) : ℚ) := by nlinarith
  have hcub : ((⌊w * (k : ℚ) + w / 2⌋ : Int) : ℚ) < w * ((k : ℚ) + 1) := by nlinarith
  have hc0 : (0 : ℚ) ≤ ((⌊w * (k : ℚ) + w / 2⌋ : Int) : ℚ) := by
    have : (0 : ℚ) ≤ w * (k : ℚ) := by positivity
    linarith
  have hfloor : ⌊((⌊w * (k : ℚ) + w / 2⌋ : Int) : ℚ) / w⌋ = (k : Int) := by
    rw [Int.floor_eq_iff]
    constructor
    · rw [le_div_iff hwpos]
      push_cast
      linarith [hclb]
    · rw [div_lt_iff hwpos]
      push_cast
      linarith [hcub]
  rw [binIndex, hc, ← hw, pyint_eq_floor (div_nonneg hc0 hwpos.le), hfloor]
  have hkn : (k : Int) ≤ (n : Int) - 1 := by omega
  exact min_eq_left hkn

/-- C10 (amended).  For every `n_bins` between 1 and 50, every answer
count, every agent kind, and every state of the random source: each
triple emitted by `generate_reference_answers` carries the truncated
centroid of the bin it was generated for, and `bin_answers`' rule places
it back into exactly that bin. -/
theorem C10_reference_round_trip {σ : Type} (randint : σ → Int × σ) (s0 : σ)
    (n_answers n_bins : ℕ) (ref_type : String)
    (ans : List AnswerTriple) (s' : σ) (h1 : 1 ≤ n_bins) (h50 : n_bins ≤ 50)
    (hgen : generate_reference_answers randint s0 n_answers n_bins ref_type =
      .ok (ans, s')) :
    ∀ t ∈ ans, ∃ k, k < n_bins ∧ t.2.2 = refConf n_bins k ∧
      binIndex t.2.2 n_bins = (k : Int) := by
  intro t ht
  rw [generate_reference_answers, if_neg (by omega)] at hgen
  simp only [Except.ok.injEq] at hgen
  have hans : ans = (genAll randint ref_type n_bins (n_answers / n_bins)
      (List.range n_bins) s0).1 := by
    rw [hgen]
  rw [hans] at ht
  obtain ⟨k, hk, hconf, _⟩ := mem_genAll randint ref_type n_bins
    (n_answers / n_bins) (List.range n_bins) s0 t ht
  refine ⟨k, List.mem_range.mp hk, hconf, ?_⟩
  rw [hconf]
  exact binIndex_refConf h1 h50 (List.mem_range.mp hk)

/-- C10 witness: the bin-0 triple of a concrete four-bin run rebins to
its own bin. -/
theorem C10_reference_round_trip_witness :
    ∃ k, k < 4 ∧ (((0 : Int), (0 : Int), (12 : Int)) : AnswerTriple).2.2 = refConf 4 k ∧
      binIndex (((0 : Int), (0 : Int), (12 : Int)) : AnswerTriple).2.2 4 = (k : Int) :=
  C10_reference_round_trip constRandint () 4 4 "god"
    [(0, 0, 12), (0, 0, 37), (0, 0, 62), (0, 0, 87)] () (by decide) (by decide)
    (by decide) (0, 0, 12) (by decide)

/-- The perfect run with 66 answers over 66 bins under the degenerate
random source, used by the C10 counterexample. -/
def god66 : List AnswerTriple :=
  (genAll constRandint "god" 66 1 (List.range 66) ()).1

/-- C10 counterexample.  With `n_bins = 66` the bin width drops below 2
and centroid truncation can leave the bin: the triple `(0, 0, 3)` emitted
for bin 2 (whose truncated centroid is 3) is placed by the binning rule
into bin 1, not bin 2.  So the round trip fails for general `n_bins ≥ 1`. -/
theorem C10_counterexample :
    generate_reference_answers constRandint () 66 66 "god" = .ok (god66, ()) ∧
      (((0 : Int), (0 : Int), (3 : Int)) : AnswerTriple) ∈ god66 ∧
      refConf 66 2 = 3 ∧ binIndex 3 66 = 1 ∧ binIndex 3 66 ≠ 2 := by
  refine ⟨by decide, by decide, by decide, by decide, by decide⟩

/-- One raw CSV row as `pd.read_csv` delivers it, before `load_data`
converts the timestamp and answers columns.  The text level of those two
cells is library territory (`pd.to_datetime` / `ast.literal_eval`), so a
cell is modelled as already classified: `some v` when the library call
would succeed with value `v`, `none` when it would raise. -/
structure RawRow where
  token : String
  timestamp_raw : Option Int
  answers_raw : Option (List AnswerTriple)
  score : Int
  total : Int
deriving DecidableEq

/-- The `pd.to_datetime` step for one cell of the timestamp column. -/
def parseTs (p : String × RawRow) : Except Err (String × RawRow × Int) :=
  match p.2.timestamp_raw with
  | none => .error .malformedTimestamp
  | some ts => .ok (p.1, p.2, ts)

/-- The `ast.literal_eval` step for one row of the answers column,
producing the final `Submission` with the file stem as quiz name. -/
def decodeAnswers (q : String × RawRow × Int) : Except Err Submission :=
  match q.2.1.answers_raw with
  | none => .error .malformedAnswers
  | some a => .ok ⟨q.2.1.token, q.1, q.2.2, a, q.2.1.score, q.2.1.total⟩

/-- `load_data` (lines 17–37).  Input: one `(file stem, rows)` pair per
CSV file.  `pd.concat` on an empty list raises; then `pd.to_datetime` is
applied to the whole concatenated timestamp column (one unparseable cell
fails the whole call), then `ast.literal_eval` is applied cell-by-cell to
the answers column (the first undecodable cell raises and propagates).
No exception is caught anywhere in `load_data`. -/
def load_data (csv_files : List (String × List RawRow)) :
    Except Err (List Submission) :=
  if csv_files = [] then .error .noObjectsToConcat
  else do
    let withTs ← (csv_files.bind (fun f => f.2.map (fun r => (f.1, r)))).mapM parseTs
    withTs.mapM decodeAnswers

/-- `calculate_final_scores` (lines 55–67): the projection onto
`(token, quiz_name, score, total)` (the intermediate string column is
built and then dropped by the source). -/
def calculate_final_scores (df : List Submission) :
    List (String × String × Int × Int) :=
  df.map (fun r => (r.token, r.quiz_name, r.score, r.total))

/-- `extract_all_answers` (lines 70–85): filter the frame to one token,
then concatenate the answer lists in row order. -/
def extract_all_answers (df : List Submission) (token : String) :
    List AnswerTriple :=
  (df.filter (fun r => r.token = token)).bind (fun r => r.answers)

/-- `df['token'].unique()`: the tokens in first-appearance order. -/
def uniqueTokens (df : List Submission) : List String :=
  df.foldl (fun acc r => if r.token ∈ acc then acc else acc ++ [r.token]) []

/-- Lookup in a Python dict modelled as an association list. -/
def dictGet {α : Type} (d : List (Int × α)) (k : Int) : Option α :=
  (d.find? (fun p => p.1 = k)).map (fun p => p.2)

/-- In-place update of an existing key of a Python dict. -/
def dictSet {α : Type} (d : List (Int × α)) (k : Int) (v : α) :
    List (Int × α) :=
  d.map (fun p => if p.1 = k then (k, v) else p)

/-- `bin_answers` (lines 110–129).  `bin_width = 100 / n_bins` raises on
`n_bins = 0`; the dict is initialised with keys `0 .. n_bins - 1`; each
answer is appended to `bins[bin_idx]`, raising `KeyError` if `bin_idx`
were outside the initialised keys. -/
def bin_answers (answers : List AnswerTriple) (n_bins : ℕ) :
    Except Err (List (Int × List AnswerTriple)) :=
  if n_bins = 0 then .error .zeroDivision
  else
    answers.foldlM (fun bins a =>
      match dictGet bins (binIndex a.2.2 n_bins) with
      | none => Except.error Err.keyError
      | some l => Except.ok (dictSet bins (binIndex a.2.2 n_bins) (l ++ [a])))
      ((List.range n_bins).map (fun i => ((i : Int), ([] : List AnswerTriple))))

/-- `get_bin_centroids` (lines 132–143): raises on `n_bins = 0`,
otherwise the list of bin centroids. -/
def get_bin_centroids (n_bins : ℕ) : Except Err (List ℚ) :=
  if n_bins = 0 then .error .zeroDivision
  else .ok ((List.range n_bins).map (fun i => bin_centroid n_bins i))

/-- The data computations of `plot_calibration` (lines 201–267), with the
pure rendering calls (axes, colors, files) omitted.  For each student:
bin the answers, take per-bin statistics, scale by 100 inside a
`try/except TypeError` that keeps `None` for empty bins.  For each
reference: the same, except the scaling `stats[0] * 100` is NOT guarded,
so an empty reference bin raises `TypeError`. -/
def plot_calibration_data
    (student_data : List (String × List AnswerTriple))
    (references : List (String × List AnswerTriple)) (n_bins : ℕ) :
    Except Err ((List ℚ) ×
      (List (String × List (Option ℚ × Option ℚ × Option ℚ))) ×
      (List (String × List ℚ))) := do
  let centroids ← get_bin_centroids n_bins
  let studentStats ← student_data.mapM (fun p => do
    let bins ← bin_answers p.2 n_bins
    let stats ← (List.range n_bins).mapM (fun i => do
      match dictGet bins (i : Int) with
      | none => Except.error Err.keyError
      | some bl =>
        match compute_bin_statistics bl with
        | none => Except.ok ((none, none, none) :
            Option ℚ × Option ℚ × Option ℚ)
        | some s => Except.ok (some (s.1 * 100), some (s.2.1 * 100),
            some (s.2.2 * 100)))
    Except.ok (p.1, stats))
  let refStats ← references.mapM (fun p => do
    let bins ← bin_answers p.2 n_bins
    let stats ← (List.range n_bins).mapM (fun i => do
      match dictGet bins (i : Int) with
      | none => Except.error Err.keyError
      | some bl =>
        match compute_bin_statistics bl with
        | none => Except.error Err.typeError
        | some s => Except.ok (s.1 * 100))
    Except.ok (p.1, stats))
  Except.ok (centroids, studentStats, refStats)

/-- The results accumulated by `analyze_calibration` before the reference
models are generated (lines 279–305 of the source). -/
structure FrontResult where
  df_all : List Submission
  df : List Submission
  scores : List (String × String × Int × Int)
  students : List String
  student_data : List (String × List AnswerTriple)
  briers : List (String × ℚ)
deriving DecidableEq

/-- Lines 279–305 of `analyze_calibration`: load, normalize, score, list
the students, compute the average answer count (a `ZeroDivisionError`
when there are no students), and build each student's answer sequence and
Brier score.  NOTE, faithful to the source: `extract_all_answers` is
called on `df_all` — the raw frame — not on the normalized `df`. -/
def analyze_front (csv_files : List (String × List RawRow)) :
    Except Err FrontResult := do
  let df_all ← load_data csv_files
  let df := get_latest_submissions df_all
  let scores := calculate_final_scores df
  let students := uniqueTokens df
  let _n_avg ←
    if students.length = 0 then (Except.error Err.zeroDivision : Except Err Int)
    else Except.ok (pyint
      (((students.map (fun t => (extract_all_answers df_all t).length)).sum : ℚ) /
        (students.length : ℚ)))
  let student_data := students.map (fun t => (t, extract_all_answers df_all t))
  let briers := student_data.map (fun p => (p.1, calculate_brier_score p.2))
  Except.ok ⟨df_all, df, scores, students, student_data, briers⟩

/-- The final output structure of a successful `analyze_calibration` run:
scores table, per-student Brier scores and answer sequences, bin
centroids, per-student per-bin statistics, per-reference per-bin actual
accuracies. -/
structure AnalysisReport where
  scores : List (String × String × Int × Int)
  briers : List (String × ℚ)
  student_data : List (String × List AnswerTriple)
  centroids : List ℚ
  studentStats : List (String × List (Option ℚ × Option ℚ × Option ℚ))
  refStats : List (String × List ℚ)
deriving DecidableEq

/-- `analyze_calibration` (lines 270–320): the front stage (load,
normalize, score, Brier), then the four reference models with the
hard-coded sample size 2000, then the plot-stage data computations. -/
def analyze_calibration {σ : Type} (randint : σ → Int × σ) (s0 : σ)
    (csv_files : List (String × List RawRow)) (n_bins : ℕ) :
    Except Err AnalysisReport := do
  let fr ← analyze_front csv_files
  let god ← generate_reference_answers randint s0 2000 n_bins "god"
  let monkey1 ← generate_reference_answers randint god.2 2000 n_bins "monkey"
  let monkey2 ← generate_reference_answers randint monkey1.2 2000 n_bins "monkey"
  let monkey3 ← generate_reference_answers randint monkey2.2 2000 n_bins "monkey"
  let references := [("god", god.1), ("monkey1", monkey1.1),
    ("monkey2", monkey2.1), ("monkey3", monkey3.1)]
  let plotData ← plot_calibration_data fr.student_data references n_bins
  Except.ok ⟨fr.scores, fr.briers, fr.student_data, plotData.1,
    plotData.2.1, plotData.2.2⟩

/-- Earlier attempt of student `s` on quiz1: one answer, wrong, at
confidence 50. -/
def rowEarly : RawRow := ⟨"s", some 1, some [(0, 1, 50)], 0, 1⟩

/-- Later attempt of student `s` on quiz1: one answer, correct, at
confidence 90. -/
def rowLate : RawRow := ⟨"s", some 2, some [(0, 0, 90)], 1, 1⟩

/-- A dataset in which the same student submitted the same quiz twice. -/
def files6 : List (String × List RawRow) := [("quiz1", [rowEarly, rowLate])]

/-- C6 (code bug).  `analyze_calibration` builds every student's answer
sequence from `df_all` — the raw frame — not from the normalized `df`
(source lines 294 and 302), contradicting `extract_all_answers`' own
docstring ("df: DataFrame with latest submissions") and the spec.  On a
dataset where student `s` resubmitted quiz1, the sequence fed to the
Brier scorer and the binner contains the superseded attempt `(0, 1, 50)`
(giving Brier 13/100), whereas extraction from the normalized frame —
what the claim states — yields only the later attempt (Brier 1/100). -/
theorem C6_superseded_answers_reach_scorer :
    (analyze_front files6).map (fun fr => (fr.student_data, fr.briers)) =
        .ok ([("s", [(0, 1, 50), (0, 0, 90)])], [("s", 13/100)]) ∧
      (load_data files6).map
          (fun dfa => extract_all_answers (get_latest_submissions dfa) "s") =
        .ok [(0, 0, 90)] ∧
      calculate_brier_score [(0, 0, 90)] = 1/100 := by
  refine ⟨by decide, by decide, by decide⟩

lemma mapM_error_of_mem {α β : Type} (f : α → Except Err β) :
    ∀ (l : List α) (x : α), x ∈ l → (∃ e, f x = .error e) →
      ∃ e, l.mapM f = .error e := by
  intro l
  induction l with
  | nil => simp
  | cons a rest ih =>
    intro x hx hbad
    rcases List.mem_cons.mp hx with heq | hmem
    · obtain ⟨e, he⟩ := hbad
      rw [← heq]
      refine ⟨e, ?_⟩
      rw [List.mapM_cons, he]
      rfl
    · cases ha : f a with
      | error e => exact ⟨e, by rw [List.mapM_cons, ha]; rfl⟩
      | ok b =>
        obtain ⟨e, he⟩ := ih x hmem hbad
        refine ⟨e, ?_⟩
        rw [List.mapM_cons, ha, he]
        rfl

lemma mapM_ok_of_mem {α β : Type} (f : α → Except Err β) :
    ∀ (l : List α) (l' : List β) (x : α), l.mapM f = .ok l' → x ∈ l →
      ∃ y, f x = .ok y ∧ y ∈ l' := by
  intro l
  induction l with
  | nil => simp
  | cons a rest ih =>
    intro l' x hok hx
    rw [List.mapM_cons] at hok
    cases ha : f a with
    | error e => rw [ha] at hok; exact absurd hok (by simp [Bind.bind, Except.bind])
    | ok b =>
      rw [ha] at hok
      cases hrest : rest.mapM f with
      | error e =>
        rw [hrest] at hok
        exact absurd hok (by simp [Bind.bind, Except.bind])
      | ok bs =>
        rw [hrest] at hok
        have hl' : l' = b :: bs := by
          have : (Except.ok (b :: bs) : Except Err (List β)) = .ok l' := by
            simpa [Bind.bind, Except.bind, pure, Except.pure] using hok
          simpa using this.symm
        rcases List.mem_cons.mp hx with heq | hmem
        · exact ⟨b, by rw [heq]; exact ha, by rw [hl']; exact List.mem_cons_self _ _⟩
        · obtain ⟨y, hy, hymem⟩ := ih bs x hrest hmem
          exact ⟨y, hy, by rw [hl']; exact List.mem_cons_of_mem _ hymem⟩

/-- C7 (amended).  A single row whose timestamp cell is unparseable or
whose answers cell is undecodable makes `load_data` raise, aborting the
entire load: no row is individually dropped, no count is reported, and
the other (valid) rows are lost with it. -/
theorem C7_malformed_row_aborts_load
    (csv_files : List (String × List RawRow)) (nm : String)
    (rows : List RawRow) (r : RawRow) (hf : (nm, rows) ∈ csv_files)
    (hr : r ∈ rows) (hbad : r.timestamp_raw = none ∨ r.answers_raw = none) :
    ∃ e, load_data csv_files = .error e := by
  have hne : csv_files ≠ [] := by
    intro h
    rw [h] at hf
    exact absurd hf (List.not_mem_nil _)
  have hmem : (nm, r) ∈ csv_files.bind (fun f => f.2.map (fun x => (f.1, x))) := by
    refine List.mem_bind.mpr ⟨(nm, rows), hf, ?_⟩
    exact List.mem_map.mpr ⟨r, hr, rfl⟩
  rw [load_data, if_neg hne]
  rcases hbad with hts | hans
  · obtain ⟨e, he⟩ := mapM_error_of_mem parseTs _ (nm, r) hmem
      ⟨Err.malformedTimestamp, by simp [parseTs, hts]⟩
    exact ⟨e, by rw [he]; rfl⟩
  · cases h1 : (csv_files.bind (fun f => f.2.map (fun x => (f.1, x)))).mapM parseTs with
    | error e => exact ⟨e, rfl⟩
    | ok withTs =>
      cases hts : r.timestamp_raw with
      | none =>
        obtain ⟨e, he⟩ := mapM_error_of_mem parseTs _ (nm, r) hmem
          ⟨Err.malformedTimestamp, by simp [parseTs, hts]⟩
        rw [h1] at he
        exact absurd he (by simp)
      | some ts =>
        obtain ⟨y, hy, hymem⟩ := mapM_ok_of_mem parseTs _ withTs (nm, r) h1 hmem
        have hyval : y = (nm, r, ts) := by
          simp [parseTs, hts] at hy
          exact hy.symm
        obtain ⟨e, he⟩ := mapM_error_of_mem decodeAnswers withTs y hymem
          ⟨Err.malformedAnswers, by rw [hyval]; simp [decodeAnswers, hans]⟩
        refine ⟨e, ?_⟩
        show withTs.mapM decodeAnswers = Except.error e
        exact he

/-- A row whose timestamp cell `pd.to_datetime` cannot parse. -/
def rowBadTs : RawRow := ⟨"t", none, some [(0, 0, 10)], 0, 1⟩

/-- C7 counterexample.  The valid row loads fine on its own, but adding
one row with an unparseable timestamp makes the whole load raise: the bad
row is not dropped with a reported count, and the valid row is lost —
the pipeline does crash on a single bad row even when others are valid. -/
theorem C7_counterexample :
    load_data [("quiz1", [rowLate])] =
        .ok [⟨"s", "quiz1", 2, [(0, 0, 90)], 1, 1⟩] ∧
      load_data [("quiz1", [rowLate, rowBadTs])] = .error .malformedTimestamp := by
  refine ⟨by decide, by decide⟩

/-- C7 witness: the amended theorem applied to the concrete two-row file. -/
theorem C7_malformed_row_aborts_load_witness :
    ∃ e, load_data [("quiz1", [rowLate, rowBadTs])] = .error e :=
  C7_malformed_row_aborts_load [("quiz1", [rowLate, rowBadTs])] "quiz1"
    [rowLate, rowBadTs] rowBadTs (by decide) (by decide) (Or.inl (by decide))

/-- C8 (amended).  The code performs no configuration validation at all:
whenever the front stage succeeds (loading, normalization, scoring and
Brier computation all execute on the submissions), running
`analyze_calibration` with `n_bins = 0` fails afterwards with a
`ZeroDivisionError` raised inside reference generation — not with the
`InvalidConfiguration` error the spec names, and not before processing
begins.  `option_count` is not configurable at all (the option set is
hard-coded to `0..3`). -/
theorem C8_no_config_validation {σ : Type} (randint : σ → Int × σ) (s0 : σ)
    (csv_files : List (String × List RawRow))
    (hok : (analyze_front csv_files).isOk = true) :
    analyze_calibration randint s0 csv_files 0 = .error .zeroDivision := by
  cases h : analyze_front csv_files with
  | error e => rw [h] at hok; simp [Except.isOk, Except.toBool] at hok
  | ok fr =>
    rw [analyze_calibration, h]
    show (do
      let god ← generate_reference_answers randint s0 2000 0 "god"
      let monkey1 ← generate_reference_answers randint god.2 2000 0 "monkey"
      let monkey2 ← generate_reference_answers randint monkey1.2 2000 0 "monkey"
      let monkey3 ← generate_reference_answers randint monkey2.2 2000 0 "monkey"
      let plotData ← plot_calibration_data fr.student_data
        [("god", god.1), ("monkey1", monkey1.1), ("monkey2", monkey2.1),
          ("monkey3", monkey3.1)] 0
      Except.ok (⟨fr.scores, fr.briers, fr.student_data, plotData.1,
        plotData.2.1, plotData.2.2⟩ : AnalysisReport)) = .error .zeroDivision
    rw [generate_reference_answers, if_pos rfl]
    rfl

/-- The single-valid-row dataset used for the C8 counterexample. -/
def files8 : List (String × List RawRow) := [("quiz1", [rowLate])]

/-- C8 counterexample.  With `n_bins = 0` on a valid dataset the pipeline
is not rejected with `InvalidConfiguration` before processing: the front
stage (loading, scoring, Brier) succeeds, and the run then fails with a
`ZeroDivisionError` from reference generation. -/
theorem C8_counterexample :
    (analyze_front files8).isOk = true ∧
      analyze_calibration constRandint () files8 0 = .error .zeroDivision ∧
      Err.zeroDivision ≠ Err.invalidConfiguration := by
  refine ⟨by decide, by decide, by decide⟩

/-- C8 witness: the amended theorem applied to the concrete dataset. -/
theorem C8_no_config_validation_witness :
    analyze_calibration constRandint () files8 0 = .error .zeroDivision :=
  C8_no_config_validation constRandint () files8 (by decide)
